import Mathlib

/-!
Verification of the Smart Campus Operations Analytics backend
(`backend/utils/preprocessing.py`, `backend/services/congestion_service.py`,
`backend/services/simulation_service.py`, `backend/services/interventions_service.py`,
`backend/models/train_models.py`).

Tables are embedded as lists of rows.  A cell of a numeric pandas column is an
`Option ℚ`: `none` stands for a missing value (`NaN`), `some q` for the number
`q`.  Comparisons against `NaN` are `False` in pandas/numpy, and arithmetic on
`NaN` yields `NaN`; the embedding mirrors both.  Categorical cells
(`Zone`, `Time_Slot`) are `Option String`.
-/

namespace Campus

/-- Truncation toward zero, the semantics of numpy `astype(int)` on a float. -/
def ratTrunc (q : ℚ) : ℤ :=
  if 0 ≤ q then ⌊q⌋ else ⌈q⌉

theorem ratTrunc_intCast (n : ℤ) : ratTrunc (n : ℚ) = n := by
  unfold ratTrunc
  split <;> simp

/-- Round to the nearest integer, ties to even — the rounding mode of Python
`round` and `numpy.round`, applied here to exact rationals. -/
def roundHalfEven (q : ℚ) : ℤ :=
  let f : ℤ := ⌊q⌋
  let r : ℚ := q - f
  if r < 1/2 then f
  else if 1/2 < r then f + 1
  else if Even f then f else f + 1

/-- Round `q` to `k` decimal places (ties to even), as `round(q, k)`. -/
def roundTo (k : ℕ) (q : ℚ) : ℚ :=
  (roundHalfEven (q * 10 ^ k) : ℚ) / 10 ^ k

theorem roundHalfEven_zero : roundHalfEven 0 = 0 := by
  unfold roundHalfEven
  norm_num

theorem roundTo_zero (k : ℕ) : roundTo k 0 = 0 := by
  unfold roundTo
  rw [zero_mul, roundHalfEven_zero]
  norm_num

/-- Arithmetic mean of a list of rationals (`0` on the empty list, where numpy
would emit `NaN` with a warning; no claim depends on the empty case). -/
def listMean (l : List ℚ) : ℚ := l.sum / l.length

/-- Median of the non-missing values, as `pandas.Series.median`: `none` on an
empty list, otherwise the middle order statistic (odd length) or the average of
the two middle order statistics (even length). -/
def medianList (l : List ℚ) : Option ℚ :=
  if l.isEmpty then none
  else
    let s := List.insertionSort (· ≤ ·) l
    let n := s.length
    if n % 2 = 1 then some (s.getD (n / 2) 0)
    else some ((s.getD (n / 2 - 1) 0 + s.getD (n / 2) 0) / 2)

theorem medianList_isSome {l : List ℚ} (h : l ≠ []) : (medianList l).isSome := by
  unfold medianList
  rw [if_neg (by simpa [List.isEmpty_iff] using h)]
  simp only []
  split <;> simp

theorem medianList_nil : medianList [] = none := rfl

/-- The numeric columns of the dataset that the backend touches. -/
inductive NumCol
  | securityIncidents
  | footfall
  | preparedQty
  | ordersCol
  | passengers
  | busCapacity
  | avgDelayMin
  | responseTimeHr
  | satisfactionCol
deriving DecidableEq

/-- One row of the raw table.  `val c` is the cell of numeric column `c`
(`none` = missing; for `Security_Incidents`, `none` also covers the
non-numeric header strings, which `pd.to_numeric(…, errors="coerce")`
sends to `NaN`). -/
@[ext]
structure RawRow where
  zone : Option String
  time_slot : Option String
  val : NumCol → Option ℚ

/-- Step 1 of the cleaner, per row: `Security_Incidents` is coerced to numeric,
missing entries become `0`, and the column is cast to `int`
(`pd.to_numeric(..., errors="coerce").fillna(0).astype(int)`). -/
def secStep (r : RawRow) : RawRow :=
  { r with
    val := fun c =>
      match c with
      | .securityIncidents => some ((ratTrunc ((r.val .securityIncidents).getD 0) : ℤ) : ℚ)
      | c => r.val c }

/-- Semantics of `fillna`: a present cell is kept, a missing cell is replaced by `m`
(`fillna(NaN)` is a no-op, matching `m = none`). -/
def fillVal (m : Option ℚ) (x : Option ℚ) : Option ℚ :=
  match x with
  | some v => some v
  | none => m

/-- Median of a numeric column of the table. -/
def colMedian (t : List RawRow) (c : NumCol) : Option ℚ :=
  medianList (t.filterMap (fun r => r.val c))

/-- Step 2 of the cleaner: fill the missing values of every numeric column
with the median of that column (the source guards with `if df[col].isnull().any()`,
which only skips a vacuous fill and is behaviourally the same). -/
def fillStep (t : List RawRow) : List RawRow :=
  t.map (fun r => { r with val := fun c => fillVal (colMedian t c) (r.val c) })

/-- Step 3 of the cleaner, per row: `Avg_Delay_Min.clip(lower=0)`
(`NaN` stays `NaN`). -/
def clipRow (r : RawRow) : RawRow :=
  { r with
    val := fun c =>
      match c with
      | .avgDelayMin => (r.val .avgDelayMin).map (fun q => max q 0)
      | c => r.val c }

/-- Embedding of `clean_dataframe` (backend/utils/preprocessing.py).  Steps, in source
order: 1. coerce `Security_Incidents` to numeric, fill missing with 0, cast
to int;  2. fill the missing values of every numeric column with the median of that
column;  3. clip negative `Avg_Delay_Min` values to 0. -/
def clean_dataframe (t : List RawRow) : List RawRow :=
  (fillStep (t.map secStep)).map clipRow

theorem secStep_zone (r : RawRow) : (secStep r).zone = r.zone := rfl

theorem secStep_time_slot (r : RawRow) : (secStep r).time_slot = r.time_slot := rfl

theorem secStep_val_ne (r : RawRow) (c : NumCol) (h : c ≠ .securityIncidents) :
    (secStep r).val c = r.val c := by
  cases c <;> first | rfl | exact absurd rfl h

theorem secStep_val_sec (r : RawRow) :
    (secStep r).val .securityIncidents
      = some ((ratTrunc ((r.val .securityIncidents).getD 0) : ℤ) : ℚ) := rfl

theorem clipRow_zone (r : RawRow) : (clipRow r).zone = r.zone := rfl

theorem clipRow_time_slot (r : RawRow) : (clipRow r).time_slot = r.time_slot := rfl

theorem clipRow_val_ne (r : RawRow) (c : NumCol) (h : c ≠ .avgDelayMin) :
    (clipRow r).val c = r.val c := by
  cases c <;> first | rfl | exact absurd rfl h

theorem clipRow_val_delay (r : RawRow) :
    (clipRow r).val .avgDelayMin = (r.val .avgDelayMin).map (fun q => max q 0) := rfl

theorem fillVal_some (m : Option ℚ) (v : ℚ) : fillVal m (some v) = some v := rfl

theorem fillVal_none (m : Option ℚ) : fillVal m none = m := rfl

theorem fillVal_isSome_of_isSome {m x : Option ℚ} (hm : m.isSome) :
    (fillVal m x).isSome := by
  cases x <;> simp [fillVal, hm]

/-- If the median of a column is `none`, every cell of that column is missing. -/
theorem colMedian_eq_none_iff (t : List RawRow) (c : NumCol) :
    colMedian t c = none ↔ ∀ r ∈ t, r.val c = none := by
  constructor
  · intro h r hr
    by_contra hne
    have hsome : (r.val c).isSome := Option.ne_none_iff_isSome.mp hne
    obtain ⟨q, hq⟩ := Option.isSome_iff_exists.mp hsome
    have hmem : q ∈ t.filterMap (fun r => r.val c) :=
      List.mem_filterMap.mpr ⟨r, hr, hq⟩
    have : t.filterMap (fun r => r.val c) ≠ [] := by
      intro hnil; rw [hnil] at hmem; exact List.not_mem_nil q hmem
    have := medianList_isSome this
    rw [show medianList (t.filterMap fun r => r.val c) = colMedian t c from rfl, h] at this
    exact Bool.noConfusion this
  · intro h
    unfold colMedian
    rw [List.filterMap_eq_nil_iff.mpr h]
    rfl

/-- After cleaning, the `Security_Incidents` cell of every row is an integer. -/
theorem clean_val_sec {t : List RawRow} {r : RawRow} (hr : r ∈ clean_dataframe t) :
    ∃ k : ℤ, r.val .securityIncidents = some (k : ℚ) := by
  unfold clean_dataframe fillStep at hr
  obtain ⟨r2, hr2, rfl⟩ := List.mem_map.mp hr
  obtain ⟨r1, hr1, rfl⟩ := List.mem_map.mp hr2
  obtain ⟨r0, _hr0, rfl⟩ := List.mem_map.mp hr1
  refine ⟨ratTrunc ((r0.val .securityIncidents).getD 0), ?_⟩
  rw [clipRow_val_ne _ _ (by simp)]
  show fillVal (colMedian (t.map secStep) NumCol.securityIncidents)
      ((secStep r0).val NumCol.securityIncidents)
    = some ((ratTrunc ((r0.val NumCol.securityIncidents).getD 0) : ℤ) : ℚ)
  rw [secStep_val_sec, fillVal_some]

/-- After cleaning, every present `Avg_Delay_Min` cell is non-negative. -/
theorem clean_val_delay_nonneg {t : List RawRow} {r : RawRow}
    (hr : r ∈ clean_dataframe t) {q : ℚ} (hq : r.val .avgDelayMin = some q) :
    0 ≤ q := by
  unfold clean_dataframe at hr
  obtain ⟨r2, _hr2, rfl⟩ := List.mem_map.mp hr
  rw [clipRow_val_delay] at hq
  rcases h2 : r2.val .avgDelayMin with _ | q2
  · rw [h2] at hq; exact Option.noConfusion hq
  · rw [h2] at hq
    have hmax : max q2 0 = q := by simpa using hq
    exact hmax ▸ le_max_right q2 0

/-- After cleaning, a column with a missing cell is missing in every row:
within one column, cleaning fills all cells or none. -/
theorem clean_col_none {t : List RawRow} {r : RawRow} (hr : r ∈ clean_dataframe t)
    {c : NumCol} (hc : r.val c = none) :
    ∀ r2 ∈ clean_dataframe t, r2.val c = none := by
  have hpre : ∀ x : RawRow, ∀ cc : NumCol, (clipRow x).val cc = none → x.val cc = none := by
    intro x cc h
    by_cases hd : cc = NumCol.avgDelayMin
    · subst hd
      rw [clipRow_val_delay] at h
      exact Option.map_eq_none.mp h
    · rwa [clipRow_val_ne _ _ hd] at h
  have hmed : colMedian (t.map secStep) c = none := by
    unfold clean_dataframe fillStep at hr
    obtain ⟨r2, hr2, rfl⟩ := List.mem_map.mp hr
    obtain ⟨r1, _hr1, rfl⟩ := List.mem_map.mp hr2
    have h2 : fillVal (colMedian (t.map secStep) c) (r1.val c) = none := hpre _ _ hc
    rcases hx : r1.val c with _ | v
    · rwa [hx, fillVal_none] at h2
    · rw [hx, fillVal_some] at h2; exact Option.noConfusion h2
  intro r2 hr2
  unfold clean_dataframe fillStep at hr2
  obtain ⟨y2, hy2, rfl⟩ := List.mem_map.mp hr2
  obtain ⟨y1, hy1, rfl⟩ := List.mem_map.mp hy2
  have hy1none : y1.val c = none := (colMedian_eq_none_iff _ _).mp hmed y1 hy1
  have hfill : fillVal (colMedian (t.map secStep) c) (y1.val c) = none := by
    rw [hy1none, fillVal_none, hmed]
  by_cases hd : c = NumCol.avgDelayMin
  · subst hd
    rw [clipRow_val_delay]
    exact Option.map_eq_none.mpr hfill
  · rw [clipRow_val_ne _ _ hd]
    exact hfill

/-- Applying the `Security_Incidents` coercion step to cleaned data changes
nothing. -/
theorem map_secStep_clean (t : List RawRow) :
    (clean_dataframe t).map secStep = clean_dataframe t := by
  have h : ∀ r ∈ clean_dataframe t, secStep r = r := by
    intro r hr
    obtain ⟨k, hk⟩ := clean_val_sec hr
    ext1
    · rfl
    · rfl
    · funext c
      by_cases hc : c = NumCol.securityIncidents
      · subst hc
        rw [secStep_val_sec, hk]
        simp [ratTrunc_intCast]
      · exact secStep_val_ne _ _ hc
  exact (List.map_congr_left h).trans (List.map_id _)

/-- Applying the median-fill step to cleaned data changes nothing. -/
theorem fillStep_clean (t : List RawRow) :
    fillStep (clean_dataframe t) = clean_dataframe t := by
  unfold fillStep
  have h : ∀ r ∈ clean_dataframe t,
      ({ r with val := fun c => fillVal (colMedian (clean_dataframe t) c) (r.val c) } : RawRow)
        = r := by
    intro r hr
    ext1
    · rfl
    · rfl
    · funext c
      show fillVal (colMedian (clean_dataframe t) c) (r.val c) = r.val c
      rcases hx : r.val c with _ | v
      · have hall := clean_col_none hr hx
        have : colMedian (clean_dataframe t) c = none := (colMedian_eq_none_iff _ _).mpr hall
        rw [this, fillVal_none]
      · rw [fillVal_some]
  exact (List.map_congr_left h).trans (List.map_id _)

/-- Applying the delay-clip step to cleaned data changes nothing. -/
theorem map_clipRow_clean (t : List RawRow) :
    (clean_dataframe t).map clipRow = clean_dataframe t := by
  have h : ∀ r ∈ clean_dataframe t, clipRow r = r := by
    intro r hr
    ext1
    · rfl
    · rfl
    · funext c
      by_cases hd : c = NumCol.avgDelayMin
      · subst hd
        rw [clipRow_val_delay]
        rcases hx : r.val .avgDelayMin with _ | q
        · rfl
        · have := clean_val_delay_nonneg hr hx
          simp [max_eq_left this]
      · exact clipRow_val_ne _ _ hd
  exact (List.map_congr_left h).trans (List.map_id _)

/-- C2: the cleaner is idempotent — for every raw table, applying
`clean_dataframe` twice equals applying it once. -/
theorem clean_dataframe_idempotent (t : List RawRow) :
    clean_dataframe (clean_dataframe t) = clean_dataframe t := by
  conv_lhs => rw [clean_dataframe, map_secStep_clean, fillStep_clean, map_clipRow_clean]

/-- Pandas semantics of the check `value >= 0` on a cell: `False` on `NaN`. -/
def delayGeZero (x : Option ℚ) : Bool :=
  match x with
  | some q => decide (0 ≤ q)
  | none => false

/-- A one-row table whose cells are all missing.  Its `Avg_Delay_Min` median
is `NaN`, so the median fill of the cleaner leaves the cell `NaN`. -/
def rawAllMissing : List RawRow :=
  [{ zone := none, time_slot := none, val := fun _ => none }]

/-- A one-row table with `Avg_Delay_Min = -5` and everything else missing. -/
def rawDelayNeg : List RawRow :=
  [{ zone := none, time_slot := none,
     val := fun c => match c with | .avgDelayMin => some (-5) | _ => none }]

/-- C8 counterexample: on a table whose `Avg_Delay_Min` column is entirely
missing, the cleaned `Avg_Delay_Min` cell is still missing (`NaN`), and
`NaN ≥ 0` is false — so "every `Avg_Delay_Min` value in the output is ≥ 0"
fails as stated. -/
theorem clean_delay_counterexample :
    (clean_dataframe rawAllMissing).map (fun r => r.val .avgDelayMin) = [none]
    ∧ ¬ ((clean_dataframe rawAllMissing).all
          (fun r => delayGeZero (r.val .avgDelayMin)) = true) := by
  constructor
  · rfl
  · decide

/-- C8 amended: every present `Avg_Delay_Min` value after cleaning is ≥ 0,
and whenever the raw `Avg_Delay_Min` column has at least one present value
(so its median exists), every cleaned `Avg_Delay_Min` cell is present and
≥ 0.  (A cell can stay missing only when the whole column is missing.) -/
theorem clean_delay_nonneg (t : List RawRow) :
    (∀ r ∈ clean_dataframe t, ∀ q, r.val .avgDelayMin = some q → 0 ≤ q)
    ∧ ((∃ r0 ∈ t, (r0.val .avgDelayMin).isSome) →
        (clean_dataframe t).all (fun r => delayGeZero (r.val .avgDelayMin)) = true) := by
  refine ⟨fun r hr q hq => clean_val_delay_nonneg hr hq, fun ⟨r0, hr0, hs⟩ => ?_⟩
  rw [List.all_eq_true]
  intro r hr
  have hmed : (colMedian (t.map secStep) .avgDelayMin).isSome := by
    obtain ⟨q0, hq0⟩ := Option.isSome_iff_exists.mp hs
    have hmem : q0 ∈ (t.map secStep).filterMap (fun r => r.val .avgDelayMin) := by
      refine List.mem_filterMap.mpr ⟨secStep r0, List.mem_map_of_mem _ hr0, ?_⟩
      rw [secStep_val_ne _ _ (by simp), hq0]
    have hne : (t.map secStep).filterMap (fun r => r.val .avgDelayMin) ≠ [] := by
      intro hnil; rw [hnil] at hmem; exact List.not_mem_nil q0 hmem
    exact medianList_isSome hne
  unfold clean_dataframe fillStep at hr
  obtain ⟨r2, hr2, rfl⟩ := List.mem_map.mp hr
  obtain ⟨r1, hr1, rfl⟩ := List.mem_map.mp hr2
  have hfill : (fillVal (colMedian (t.map secStep) .avgDelayMin) (r1.val .avgDelayMin)).isSome :=
    fillVal_isSome_of_isSome hmed
  obtain ⟨v, hv⟩ := Option.isSome_iff_exists.mp hfill
  have hdelay : (clipRow { r1 with
      val := fun c => fillVal (colMedian (t.map secStep) c) (r1.val c) }).val .avgDelayMin
      = some (max v 0) := by
    rw [clipRow_val_delay]
    show (fillVal (colMedian (t.map secStep) .avgDelayMin) (r1.val .avgDelayMin)).map
        (fun q => max q 0) = some (max v 0)
    rw [hv]
    rfl
  rw [hdelay]
  unfold delayGeZero
  simp [le_max_right]

/-- C8 amended, witness: the table `rawDelayNeg` has a present (negative)
delay value, and after cleaning every delay cell is present and ≥ 0. -/
theorem clean_delay_nonneg_witness :
    (clean_dataframe rawDelayNeg).all (fun r => delayGeZero (r.val .avgDelayMin)) = true :=
  (clean_delay_nonneg rawDelayNeg).2
    ⟨{ zone := none, time_slot := none,
       val := fun c => match c with | .avgDelayMin => some (-5) | _ => none },
     List.mem_singleton.mpr rfl, rfl⟩

/-- Zone→capacity lookup table (backend/config.py `ZONE_CAPACITY`). -/
def ZONE_CAPACITY : List (String × ℤ) :=
  [("Library", 200), ("Sports", 250), ("Hostel", 300), ("FoodCourt", 150), ("Academic", 250)]

/-- Per-cell semantics of `df["Zone"].map(ZONE_CAPACITY).fillna(200).astype(int)`: an
unknown or missing zone falls back to capacity 200. -/
def zoneCapacityOf (z : Option String) : ℤ :=
  match z with
  | none => 200
  | some s => (ZONE_CAPACITY.lookup s).getD 200

/-- Numpy semantics of the vectorised check `x > 0`: `False` on `NaN`. -/
def gtZero (x : Option ℚ) : Bool :=
  match x with
  | some q => decide (0 < q)
  | none => false

/-- Category list built by pandas `astype("category")` on a column: the
distinct present values, sorted. -/
def catsOf (xs : List String) : List String :=
  List.insertionSort (· ≤ ·) xs.dedup

/-- Encoding `cat.codes` per cell: a missing value gets code `-1`, a present value its
index in the sorted distinct-value list. -/
def encodeCat (cats : List String) (x : Option String) : ℤ :=
  match x with
  | none => -1
  | some s => (cats.indexOf s : ℤ)

/-- One row of the processed table: the cleaned raw cells plus the engineered
columns of `add_engineered_features`. -/
structure EngRow extends RawRow where
  zone_capacity : ℤ
  congestion_index : Option ℚ
  waste_percent : Option ℚ
  transport_utilization : Option ℚ
  zone_encoded : ℤ
  time_slot_encoded : ℤ

/-- Embedding of `add_engineered_features` (backend/utils/preprocessing.py).  Each
`np.where(cond, a / b, 0.0)` is embedded cell-wise: a `NaN` in the condition
counts as `False` (so a missing denominator yields `0.0`), and `NaN`
arithmetic in the selected branch yields `NaN` (`none`). -/
def add_engineered_features (t : List RawRow) : List EngRow :=
  let zoneCats := catsOf (t.filterMap (fun r => r.zone))
  let timeCats := catsOf (t.filterMap (fun r => r.time_slot))
  t.map (fun r =>
    let cap : ℤ := zoneCapacityOf r.zone
    { toRawRow := r
      zone_capacity := cap
      congestion_index :=
        if 0 < cap then (r.val .footfall).map (fun f => f / (cap : ℚ)) else some 0
      waste_percent :=
        if gtZero (r.val .preparedQty) then
          match r.val .preparedQty, r.val .ordersCol with
          | some p, some o => some ((p - o) / p)
          | _, _ => none
        else some 0
      transport_utilization :=
        if gtZero (r.val .busCapacity) then
          match r.val .busCapacity, r.val .passengers with
          | some b, some pa => some (pa / b)
          | _, _ => none
        else some 0
      zone_encoded := encodeCat zoneCats r.zone
      time_slot_encoded := encodeCat timeCats r.time_slot })

/-- An association-list lookup with positive values and a positive default is
positive. -/
theorem lookup_getD_pos (l : List (String × ℤ)) (hp : ∀ p ∈ l, 0 < p.2)
    (s : String) (d : ℤ) (hd : 0 < d) : 0 < (l.lookup s).getD d := by
  induction l with
  | nil => simpa [List.lookup] using hd
  | cons p es ih =>
    obtain ⟨k, v⟩ := p
    by_cases h : s == k
    · simp only [List.lookup, h, Option.getD_some]
      exact hp (k, v) (List.mem_cons_self _ _)
    · rw [Bool.not_eq_true] at h
      simp only [List.lookup, h]
      exact ih fun q hq => hp q (List.mem_cons_of_mem _ hq)

/-- Every capacity in the lookup table, and the fallback 200, is positive. -/
theorem zoneCapacityOf_pos (z : Option String) : 0 < zoneCapacityOf z := by
  rcases z with _ | s
  · decide
  · exact lookup_getD_pos ZONE_CAPACITY (by decide) s 200 (by decide)

/-- C4 counterexample: on the cleaned all-missing one-row table, the
`congestion_index` of the single row is `NaN` (`Footfall` stayed missing and
the positive-capacity branch computes `NaN / 200 = NaN`), so "none of the
three derived columns is ever NaN" fails as stated. -/
theorem engineered_nan_counterexample :
    (add_engineered_features (clean_dataframe rawAllMissing)).map
        (fun r => r.congestion_index) = [none]
    ∧ ¬ ((add_engineered_features (clean_dataframe rawAllMissing)).all
          (fun r => r.congestion_index.isSome) = true) := by
  constructor
  · rfl
  · decide

/-- C4 amended: for every row of the engineered table, the `np.where` guards
hold exactly — each ratio equals numerator/denominator when its denominator
is present and positive, and is exactly `0` when the denominator is missing
(`NaN > 0` is false) or non-positive; the zone capacity is always positive
(so the congestion guard always divides); the ratios are non-negative for
present non-negative numerators; and a ratio can be `NaN` only when its
selected numerator is `NaN` (never infinite, since every division has a
positive denominator). -/
theorem engineered_features_spec (t : List RawRow) :
    ∀ r ∈ add_engineered_features t,
      0 < r.zone_capacity
      ∧ (∀ f, r.val .footfall = some f →
          r.congestion_index = some (f / (r.zone_capacity : ℚ))
          ∧ (0 ≤ f → ∃ q, r.congestion_index = some q ∧ 0 ≤ q))
      ∧ (r.val .footfall = none → r.congestion_index = none)
      ∧ (∀ p, r.val .preparedQty = some p → 0 < p →
          r.waste_percent = (r.val .ordersCol).map (fun o => (p - o) / p))
      ∧ (∀ p, r.val .preparedQty = some p → p ≤ 0 → r.waste_percent = some 0)
      ∧ (r.val .preparedQty = none → r.waste_percent = some 0)
      ∧ (∀ b, r.val .busCapacity = some b → 0 < b →
          r.transport_utilization = (r.val .passengers).map (fun pa => pa / b))
      ∧ (∀ b, r.val .busCapacity = some b → b ≤ 0 → r.transport_utilization = some 0)
      ∧ (r.val .busCapacity = none → r.transport_utilization = some 0)
      ∧ (∀ b pa, r.val .busCapacity = some b → r.val .passengers = some pa →
          0 < b → 0 ≤ pa → ∃ q, r.transport_utilization = some q ∧ 0 ≤ q) := by
  intro r hr
  unfold add_engineered_features at hr
  obtain ⟨r0, _hr0, rfl⟩ := List.mem_map.mp hr
  have hcap : (0 : ℤ) < zoneCapacityOf r0.zone := zoneCapacityOf_pos r0.zone
  have hcapQ : (0 : ℚ) < ((zoneCapacityOf r0.zone : ℤ) : ℚ) := by exact_mod_cast hcap
  refine ⟨hcap, ?_, ?_, ?_, ?_, ?_, ?_, ?_, ?_, ?_⟩
  · intro f hf
    have hci : (if 0 < zoneCapacityOf r0.zone then
        (r0.val .footfall).map (fun v => v / ((zoneCapacityOf r0.zone : ℤ) : ℚ)) else some 0)
        = some (f / ((zoneCapacityOf r0.zone : ℤ) : ℚ)) := by
      rw [if_pos hcap, hf]
      rfl
    exact ⟨hci, fun hf0 =>
      ⟨f / ((zoneCapacityOf r0.zone : ℤ) : ℚ), hci, div_nonneg hf0 (le_of_lt hcapQ)⟩⟩
  · intro hf
    show (if 0 < zoneCapacityOf r0.zone then
        (r0.val .footfall).map (fun v => v / ((zoneCapacityOf r0.zone : ℤ) : ℚ)) else some 0)
        = none
    rw [if_pos hcap, hf]
    rfl
  · intro p hp hppos
    show (if gtZero (r0.val .preparedQty) then
        match r0.val .preparedQty, r0.val .ordersCol with
        | some p, some o => some ((p - o) / p)
        | _, _ => none
      else some 0) = (r0.val .ordersCol).map (fun o => (p - o) / p)
    have hg : gtZero (r0.val .preparedQty) = true := by
      rw [hp]; exact decide_eq_true hppos
    rw [hg, if_pos rfl, hp]
    rcases r0.val .ordersCol with _ | o <;> rfl
  · intro p hp hple
    show (if gtZero (r0.val .preparedQty) then
        match r0.val .preparedQty, r0.val .ordersCol with
        | some p, some o => some ((p - o) / p)
        | _, _ => none
      else some 0) = some 0
    have hg : gtZero (r0.val .preparedQty) = false := by
      rw [hp]
      exact decide_eq_false (not_lt.mpr hple)
    rw [hg]
    rfl
  · intro hp
    show (if gtZero (r0.val .preparedQty) then
        match r0.val .preparedQty, r0.val .ordersCol with
        | some p, some o => some ((p - o) / p)
        | _, _ => none
      else some 0) = some 0
    rw [hp]
    rfl
  · intro b hb hbpos
    show (if gtZero (r0.val .busCapacity) then
        match r0.val .busCapacity, r0.val .passengers with
        | some b, some pa => some (pa / b)
        | _, _ => none
      else some 0) = (r0.val .passengers).map (fun pa => pa / b)
    have hg : gtZero (r0.val .busCapacity) = true := by
      rw [hb]; exact decide_eq_true hbpos
    rw [hg, if_pos rfl, hb]
    rcases r0.val .passengers with _ | pa <;> rfl
  · intro b hb hble
    show (if gtZero (r0.val .busCapacity) then
        match r0.val .busCapacity, r0.val .passengers with
        | some b, some pa => some (pa / b)
        | _, _ => none
      else some 0) = some 0
    have hg : gtZero (r0.val .busCapacity) = false := by
      rw [hb]
      exact decide_eq_false (not_lt.mpr hble)
    rw [hg]
    rfl
  · intro hb
    show (if gtZero (r0.val .busCapacity) then
        match r0.val .busCapacity, r0.val .passengers with
        | some b, some pa => some (pa / b)
        | _, _ => none
      else some 0) = some 0
    rw [hb]
    rfl
  · intro b pa hb hpa hbpos hpann
    refine ⟨pa / b, ?_, div_nonneg hpann (le_of_lt hbpos)⟩
    show (if gtZero (r0.val .busCapacity) then
        match r0.val .busCapacity, r0.val .passengers with
        | some b, some pa => some (pa / b)
        | _, _ => none
      else some 0) = some (pa / b)
    have hg : gtZero (r0.val .busCapacity) = true := by
      rw [hb]; exact decide_eq_true hbpos
    rw [hg, if_pos rfl, hb, hpa]

/-- A one-row table with every relevant cell present, for witnessing. -/
def engSample : List RawRow :=
  [{ zone := some "Library", time_slot := some "Morning",
     val := fun c =>
       match c with
       | .footfall => some 190
       | .preparedQty => some 10
       | .ordersCol => some 4
       | .passengers => some 30
       | .busCapacity => some 40
       | _ => some 0 }]

/-- A default processed row, used only as the `List.getD` fallback. -/
def dEng : EngRow :=
  { zone := none, time_slot := none, val := fun _ => none,
    zone_capacity := 0, congestion_index := none, waste_percent := none,
    transport_utilization := none, zone_encoded := 0, time_slot_encoded := 0 }

/-- C4 amended, witness: on `engSample` the single processed row has a
positive zone capacity and a present, non-negative congestion index. -/
theorem engineered_features_spec_witness :
    0 < ((add_engineered_features engSample).getD 0 dEng).zone_capacity
    ∧ ∃ q, ((add_engineered_features engSample).getD 0 dEng).congestion_index = some q
        ∧ 0 ≤ q := by
  have hlen : 0 < (add_engineered_features engSample).length := by
    unfold add_engineered_features engSample
    simp
  have hmem : (add_engineered_features engSample).getD 0 dEng ∈ add_engineered_features engSample := by
    rw [List.getD_eq_getElem _ _ hlen]
    exact List.getElem_mem hlen
  have h := engineered_features_spec engSample _ hmem
  exact ⟨h.1, (h.2.1 190 rfl).2 (by norm_num)⟩

theorem mem_catsOf {xs : List String} {s : String} : s ∈ catsOf xs ↔ s ∈ xs := by
  simp [catsOf, List.mem_dedup]

theorem catsOf_nodup (xs : List String) : (catsOf xs).Nodup :=
  (List.perm_insertionSort _ _).nodup_iff.mpr (List.nodup_dedup xs)

theorem catsOf_pairwise_lt (xs : List String) : (catsOf xs).Pairwise (· < ·) := by
  have hs : (catsOf xs).Pairwise (· ≤ ·) := List.sorted_insertionSort _ _
  exact (hs.and (catsOf_nodup xs)).imp (fun h => lt_of_le_of_ne h.1 h.2)

/-- In a strictly increasing list, `indexOf` is order-preserving on members. -/
theorem indexOf_lt_iff_lt {l : List String} (hl : l.Pairwise (· < ·)) {a b : String}
    (ha : a ∈ l) (hb : b ∈ l) : l.indexOf a < l.indexOf b ↔ a < b := by
  induction l with
  | nil => exact absurd ha (List.not_mem_nil a)
  | cons c l ih =>
    obtain ⟨hc, hl2⟩ := List.pairwise_cons.mp hl
    rcases List.mem_cons.mp ha with rfl | ha2
    · rcases List.mem_cons.mp hb with rfl | hb2
      · simp
      · have hab : a < b := hc b hb2
        rw [List.indexOf_cons_self, List.indexOf_cons_ne _ (ne_of_lt hab)]
        simp [hab, Nat.succ_pos]
    · rcases List.mem_cons.mp hb with rfl | hb2
      · have hba : b < a := hc a ha2
        rw [List.indexOf_cons_self, List.indexOf_cons_ne _ (ne_of_lt hba)]
        simp [Nat.not_lt_zero, lt_asymm hba]
      · have hca : c < a := hc a ha2
        have hcb : c < b := hc b hb2
        rw [List.indexOf_cons_ne _ (ne_of_lt hca), List.indexOf_cons_ne _ (ne_of_lt hcb)]
        rw [Nat.succ_lt_succ_iff]
        exact ih hl2 ha2 hb2

/-- C9: in `add_engineered_features`, a missing `Zone` (resp. `Time_Slot`)
cell is encoded as `-1`; a present value gets a non-negative code; and for
present values the codes order and coincide exactly as the category strings
do alphabetically (so codes of distinct present values are distinct, and the
encoding is not a total bijection into non-negative codes when values are
missing). -/
theorem category_encoding_spec (t : List RawRow) :
    ∀ r ∈ add_engineered_features t,
      (r.zone = none → r.zone_encoded = -1)
      ∧ (r.time_slot = none → r.time_slot_encoded = -1)
      ∧ (∀ z, r.zone = some z → 0 ≤ r.zone_encoded)
      ∧ (∀ s, r.time_slot = some s → 0 ≤ r.time_slot_encoded)
      ∧ (∀ r2 ∈ add_engineered_features t, ∀ z1 z2, r.zone = some z1 → r2.zone = some z2 →
          ((r.zone_encoded < r2.zone_encoded ↔ z1 < z2)
            ∧ (r.zone_encoded = r2.zone_encoded ↔ z1 = z2)))
      ∧ (∀ r2 ∈ add_engineered_features t, ∀ s1 s2,
          r.time_slot = some s1 → r2.time_slot = some s2 →
          ((r.time_slot_encoded < r2.time_slot_encoded ↔ s1 < s2)
            ∧ (r.time_slot_encoded = r2.time_slot_encoded ↔ s1 = s2))) := by
  intro r hr
  unfold add_engineered_features at hr
  obtain ⟨r0, hr0, rfl⟩ := List.mem_map.mp hr
  have hmemZ : ∀ z, r0.zone = some z → z ∈ catsOf (t.filterMap (fun r => r.zone)) := by
    intro z hz
    exact mem_catsOf.mpr (List.mem_filterMap.mpr ⟨r0, hr0, hz⟩)
  have hmemT : ∀ s, r0.time_slot = some s →
      s ∈ catsOf (t.filterMap (fun r => r.time_slot)) := by
    intro s hs
    exact mem_catsOf.mpr (List.mem_filterMap.mpr ⟨r0, hr0, hs⟩)
  refine ⟨?_, ?_, ?_, ?_, ?_, ?_⟩
  · intro hz
    have hz0 : r0.zone = none := hz
    show encodeCat (catsOf (t.filterMap (fun r => r.zone))) r0.zone = -1
    rw [hz0]
    rfl
  · intro hs
    have hs0 : r0.time_slot = none := hs
    show encodeCat (catsOf (t.filterMap (fun r => r.time_slot))) r0.time_slot = -1
    rw [hs0]
    rfl
  · intro z hz
    have hz0 : r0.zone = some z := hz
    show (0 : ℤ) ≤ encodeCat (catsOf (t.filterMap (fun r => r.zone))) r0.zone
    rw [hz0]
    exact Int.ofNat_nonneg _
  · intro s hs
    have hs0 : r0.time_slot = some s := hs
    show (0 : ℤ) ≤ encodeCat (catsOf (t.filterMap (fun r => r.time_slot))) r0.time_slot
    rw [hs0]
    exact Int.ofNat_nonneg _
  · intro r2 hr2 z1 z2 hz1 hz2
    obtain ⟨r1, hr1, rfl⟩ := List.mem_map.mp hr2
    have hz1d : r0.zone = some z1 := hz1
    have hz2d : r1.zone = some z2 := hz2
    have h1 : z1 ∈ catsOf (t.filterMap (fun r => r.zone)) := hmemZ z1 hz1d
    have h2 : z2 ∈ catsOf (t.filterMap (fun r => r.zone)) :=
      mem_catsOf.mpr (List.mem_filterMap.mpr ⟨r1, hr1, hz2d⟩)
    show (encodeCat (catsOf (t.filterMap (fun r => r.zone))) r0.zone
          < encodeCat (catsOf (t.filterMap (fun r => r.zone))) r1.zone ↔ z1 < z2)
      ∧ (encodeCat (catsOf (t.filterMap (fun r => r.zone))) r0.zone
          = encodeCat (catsOf (t.filterMap (fun r => r.zone))) r1.zone ↔ z1 = z2)
    rw [hz1d, hz2d]
    unfold encodeCat
    constructor
    · rw [Nat.cast_lt]
      exact indexOf_lt_iff_lt (catsOf_pairwise_lt _) h1 h2
    · rw [Nat.cast_inj]
      exact List.indexOf_inj h1 h2
  · intro r2 hr2 s1 s2 hs1 hs2
    obtain ⟨r1, hr1, rfl⟩ := List.mem_map.mp hr2
    have hs1d : r0.time_slot = some s1 := hs1
    have hs2d : r1.time_slot = some s2 := hs2
    have h1 : s1 ∈ catsOf (t.filterMap (fun r => r.time_slot)) := hmemT s1 hs1d
    have h2 : s2 ∈ catsOf (t.filterMap (fun r => r.time_slot)) :=
      mem_catsOf.mpr (List.mem_filterMap.mpr ⟨r1, hr1, hs2d⟩)
    show (encodeCat (catsOf (t.filterMap (fun r => r.time_slot))) r0.time_slot
          < encodeCat (catsOf (t.filterMap (fun r => r.time_slot))) r1.time_slot ↔ s1 < s2)
      ∧ (encodeCat (catsOf (t.filterMap (fun r => r.time_slot))) r0.time_slot
          = encodeCat (catsOf (t.filterMap (fun r => r.time_slot))) r1.time_slot ↔ s1 = s2)
    rw [hs1d, hs2d]
    unfold encodeCat
    constructor
    · rw [Nat.cast_lt]
      exact indexOf_lt_iff_lt (catsOf_pairwise_lt _) h1 h2
    · rw [Nat.cast_inj]
      exact List.indexOf_inj h1 h2

/-- A three-row table with zones "B", "A" and missing, for witnessing. -/
def encSample : List RawRow :=
  [{ zone := some "B", time_slot := some "Evening", val := fun _ => some 0 },
   { zone := some "A", time_slot := some "Morning", val := fun _ => some 0 },
   { zone := none, time_slot := none, val := fun _ => some 0 }]

/-- C9 witness: in `encSample`, the missing-zone row is encoded `-1`, and the
codes of zones "A" and "B" compare as the strings do. -/
theorem category_encoding_spec_witness :
    ((add_engineered_features encSample).getD 2 dEng).zone_encoded = -1
    ∧ (((add_engineered_features encSample).getD 1 dEng).zone_encoded
        < ((add_engineered_features encSample).getD 0 dEng).zone_encoded
        ↔ ("A" : String) < "B") := by
  have hlen : (add_engineered_features encSample).length = 3 := by
    unfold add_engineered_features encSample
    simp
  have hm2 : (add_engineered_features encSample).getD 2 dEng ∈ add_engineered_features encSample := by
    rw [List.getD_eq_getElem _ _ (by rw [hlen]; exact Nat.lt_succ_self 2)]
    exact List.getElem_mem _
  have hm1 : (add_engineered_features encSample).getD 1 dEng ∈ add_engineered_features encSample := by
    rw [List.getD_eq_getElem _ _ (by rw [hlen]; norm_num)]
    exact List.getElem_mem _
  have hm0 : (add_engineered_features encSample).getD 0 dEng ∈ add_engineered_features encSample := by
    rw [List.getD_eq_getElem _ _ (by rw [hlen]; norm_num)]
    exact List.getElem_mem _
  refine ⟨(category_encoding_spec encSample _ hm2).1 rfl, ?_⟩
  exact ((category_encoding_spec encSample _ hm1).2.2.2.2.1 _ hm0 "A" "B" rfl rfl).1

/-- Mean with pandas `skipna` semantics: `NaN` when no value is present. -/
def optMean (l : List ℚ) : Option ℚ :=
  if l.isEmpty then none else some (listMean l)

/-- One record of the congestion heatmap
(`{"zone": …, "time_slot": …, "congestion_index": …}`). -/
structure HeatCell where
  zone : String
  time_slot : String
  congestion_index : Option ℚ

/-- Lexicographic order on the `(Zone, Time_Slot)` group keys — the order in
which `df.groupby(["Zone", "Time_Slot"])` (with its default `sort=True`)
emits the groups. -/
def keyPairLe (a b : String × String) : Prop :=
  a.1 < b.1 ∨ (a.1 = b.1 ∧ a.2 ≤ b.2)

instance : DecidableRel keyPairLe := fun a b => by
  unfold keyPairLe
  infer_instance

/-- The distinct `(Zone, Time_Slot)` keys, sorted; rows with a missing key
are dropped (`groupby` default `dropna=True`). -/
def groupKeys (t : List EngRow) : List (String × String) :=
  List.insertionSort keyPairLe
    ((t.filterMap (fun r =>
        match r.zone, r.time_slot with
        | some z, some s => some (z, s)
        | _, _ => none)).dedup)

/-- The present `congestion_index` values of one group (`GroupBy.mean` skips
`NaN` cells). -/
def groupVals (t : List EngRow) (k : String × String) : List ℚ :=
  (t.filter (fun r => decide (r.zone = some k.1 ∧ r.time_slot = some k.2))).filterMap
    (fun r => r.congestion_index)

/-- Embedding of `get_congestion_heatmap` (backend/services/congestion_service.py): mean
`congestion_index` per `Zone × Time_Slot` group, rounded to 3 decimals. -/
def get_congestion_heatmap (t : List EngRow) : List HeatCell :=
  (groupKeys t).map (fun k => ⟨k.1, k.2, (optMean (groupVals t k)).map (roundTo 3)⟩)

/-- Pandas semantics of `value >= threshold` on a cell: `False` on `NaN`. -/
def geThr (x : Option ℚ) (thr : ℚ) : Bool :=
  match x with
  | some q => decide (thr ≤ q)
  | none => false

/-- Embedding of `get_bottlenecks`: heatmap cells at or above the threshold. -/
def get_bottlenecks (t : List EngRow) (threshold : ℚ) : List HeatCell :=
  (get_congestion_heatmap t).filter (fun c => geThr c.congestion_index threshold)

/-- Semantics of `idxmax` over the heatmap (first cell attaining the maximum, `NaN`
skipped; `none` when the heatmap is empty or all-`NaN`, where pandas would
raise). -/
def argmaxCell (cells : List HeatCell) : Option HeatCell :=
  cells.foldl (fun acc c =>
    match acc, c.congestion_index with
    | none, some _ => some c
    | none, none => none
    | some a, none => some a
    | some a, some q =>
      match a.congestion_index with
      | some aq => if aq < q then some c else some a
      | none => some c) none

/-- Result record of `get_congestion_summary`. -/
structure CongestionSummary where
  overall_avg_congestion : Option ℚ
  most_congested_zone : Option String
  most_congested_time_slot : Option String
  bottleneck_count : ℕ
  heatmap : List HeatCell

/-- Embedding of `get_congestion_summary` (backend/services/congestion_service.py). -/
def get_congestion_summary (t : List EngRow) : CongestionSummary :=
  let heatmap := get_congestion_heatmap t
  let worst := argmaxCell heatmap
  { overall_avg_congestion :=
      (optMean (heatmap.filterMap (fun c => c.congestion_index))).map (roundTo 3)
    most_congested_zone := worst.map (fun c => c.zone)
    most_congested_time_slot := worst.map (fun c => c.time_slot)
    bottleneck_count :=
      (heatmap.filter (fun c => geThr c.congestion_index (85/100))).length
    heatmap := heatmap }

/-- Helper: the field `bottleneck_count` of the summary recounted directly over the
group keys. -/
theorem bottleneck_count_eq (t : List EngRow) :
    (get_congestion_summary t).bottleneck_count
      = ((groupKeys t).filter
          (fun k => geThr ((optMean (groupVals t k)).map (roundTo 3)) (85/100))).length := by
  show ((get_congestion_heatmap t).filter (fun c => geThr c.congestion_index (85/100))).length = _
  unfold get_congestion_heatmap
  rw [List.filter_map, List.length_map]
  rfl

/-- One synthetic heatmap row: zone `z`, time slot "T", congestion `q`. -/
def mkCell (z : String) (q : ℚ) : EngRow :=
  { zone := some z, time_slot := some "T", val := fun _ => none,
    zone_capacity := 200, congestion_index := some q, waste_percent := none,
    transport_utilization := none, zone_encoded := 0, time_slot_encoded := 0 }

/-- Five one-row groups; exactly two group means (0.9 and 0.87) are ≥ 0.85. -/
def exampleFiveGroups : List EngRow :=
  [mkCell "A" (9/10), mkCell "B" (87/100), mkCell "C" (3/10),
   mkCell "D" (1/2), mkCell "E" (1/10)]

/-- C1: `bottleneck_count` equals the number of `Zone × Time_Slot` groups
whose mean `congestion_index`, rounded to 3 decimals, is ≥ 0.85; and on a
table with five groups of which exactly two have mean ≥ 0.85 it returns 2. -/
theorem bottleneck_count_spec :
    (∀ t : List EngRow,
      (get_congestion_summary t).bottleneck_count
        = ((groupKeys t).filter
            (fun k => geThr ((optMean (groupVals t k)).map (roundTo 3)) (85/100))).length)
    ∧ (get_congestion_summary exampleFiveGroups).bottleneck_count = 2 := by
  refine ⟨bottleneck_count_eq, ?_⟩
  rw [bottleneck_count_eq]
  rw [← List.countP_eq_length_filter]
  unfold groupKeys
  have hp : (exampleFiveGroups.filterMap fun r =>
      match r.zone, r.time_slot with
      | some z, some s => some (z, s)
      | _, _ => none)
      = [("A", "T"), ("B", "T"), ("C", "T"), ("D", "T"), ("E", "T")] := rfl
  rw [hp, List.dedup_eq_self.mpr (by decide),
    (List.perm_insertionSort keyPairLe _).countP_eq]
  have hA : (optMean (groupVals exampleFiveGroups ("A", "T"))).map (roundTo 3)
      = some (9/10) := by
    norm_num [show groupVals exampleFiveGroups ("A", "T") = [9/10] from rfl,
      optMean, listMean, roundTo, roundHalfEven]
  have hB : (optMean (groupVals exampleFiveGroups ("B", "T"))).map (roundTo 3)
      = some (87/100) := by
    norm_num [show groupVals exampleFiveGroups ("B", "T") = [87/100] from rfl,
      optMean, listMean, roundTo, roundHalfEven]
  have hC : (optMean (groupVals exampleFiveGroups ("C", "T"))).map (roundTo 3)
      = some (3/10) := by
    norm_num [show groupVals exampleFiveGroups ("C", "T") = [3/10] from rfl,
      optMean, listMean, roundTo, roundHalfEven]
  have hD : (optMean (groupVals exampleFiveGroups ("D", "T"))).map (roundTo 3)
      = some (1/2) := by
    norm_num [show groupVals exampleFiveGroups ("D", "T") = [1/2] from rfl,
      optMean, listMean, roundTo, roundHalfEven]
  have hE : (optMean (groupVals exampleFiveGroups ("E", "T"))).map (roundTo 3)
      = some (1/10) := by
    norm_num [show groupVals exampleFiveGroups ("E", "T") = [1/10] from rfl,
      optMean, listMean, roundTo, roundHalfEven]
  simp only [List.countP_cons, List.countP_nil]
  rw [hA, hB, hC, hD, hE]
  norm_num [geThr]

/-- Feature vector of the satisfaction model, in bundle order:
`congestion_index`, `Avg_Delay_Min`, `waste_percent`, `Response_Time_hr`. -/
@[ext]
structure FeatVec where
  ci : Option ℚ
  delay : Option ℚ
  wp : Option ℚ
  rt : Option ℚ

/-- Result record of `run_simulation`. -/
structure SimResult where
  congestion_reduction_pct : ℚ
  delay_reduction_pct : ℚ
  baseline_satisfaction : ℚ
  projected_satisfaction : ℚ
  improvement_pct : ℚ

/-- Embedding of `run_simulation` (backend/services/simulation_service.py).  The fitted
regressor inside the cached satisfaction bundle is abstracted as the
deterministic function `predict`; everything else — feature extraction over
the whole table, the multiplicative scaling of `congestion_index` and
`Avg_Delay_Min`, the averaging, rounding, and the division guard on
`improvement_pct` — follows the source. -/
def run_simulation (predict : FeatVec → ℚ) (t : List EngRow) (cr dr : ℚ) : SimResult :=
  let X_full := t.map (fun r =>
    FeatVec.mk r.congestion_index (r.val .avgDelayMin) r.waste_percent (r.val .responseTimeHr))
  let baseline := roundTo 3 (listMean (X_full.map predict))
  let X_sim := X_full.map (fun v =>
    { v with
      ci := v.ci.map (fun q => q * (1 - cr / 100))
      delay := v.delay.map (fun q => q * (1 - dr / 100)) })
  let projected := roundTo 3 (listMean (X_sim.map predict))
  let improvement :=
    if baseline ≠ 0 then roundTo 2 ((projected - baseline) / baseline * 100) else 0
  ⟨cr, dr, baseline, projected, improvement⟩

/-- C6: with both reduction percentages 0 the scaled matrix equals the
baseline matrix, so the simulation returns `baseline_satisfaction =
projected_satisfaction` and `improvement_pct = 0`, for every table and every
deterministic model. -/
theorem run_simulation_zero (predict : FeatVec → ℚ) (t : List EngRow) :
    (run_simulation predict t 0 0).baseline_satisfaction
      = (run_simulation predict t 0 0).projected_satisfaction
    ∧ (run_simulation predict t 0 0).improvement_pct = 0 := by
  have hid : (t.map (fun r =>
        FeatVec.mk r.congestion_index (r.val .avgDelayMin) r.waste_percent
          (r.val .responseTimeHr))).map
      (fun v => { v with
        ci := v.ci.map (fun q => q * (1 - (0:ℚ) / 100))
        delay := v.delay.map (fun q => q * (1 - (0:ℚ) / 100)) })
      = t.map (fun r =>
        FeatVec.mk r.congestion_index (r.val .avgDelayMin) r.waste_percent
          (r.val .responseTimeHr)) := by
    refine (List.map_congr_left ?_).trans (List.map_id _)
    intro v _
    have h1 : (1 - (0:ℚ) / 100) = 1 := by norm_num
    cases v with
    | mk ci d w rt =>
      ext1 <;> simp [h1]
  unfold run_simulation
  dsimp only
  rw [hid]
  refine ⟨rfl, ?_⟩
  show (if roundTo 3 (listMean (List.map predict _)) ≠ 0 then
      roundTo 2 ((roundTo 3 (listMean (List.map predict _))
        - roundTo 3 (listMean (List.map predict _)))
        / roundTo 3 (listMean (List.map predict _)) * 100) else 0) = 0
  split
  · rw [sub_self, zero_div, zero_mul, roundTo_zero]
  · rfl

/-- One intervention record (backend/services/interventions_service.py);
only the fields the pooling/sorting step reads are kept, plus `id` and
`category` to track identity. -/
structure Intervention where
  id : String
  category : String
  priority : String
  projected_impact : ℚ

/-- Rank table `priority_order = {"critical": 0, "high": 1, "medium": 2}` with
`.get(p, 3)` for anything else. -/
def priorityRank (p : String) : ℕ :=
  if p = "critical" then 0 else if p = "high" then 1 else if p = "medium" then 2 else 3

/-- The sort key `(priority_order.get(x["priority"], 3),
-x.get("projected_impact", 0))`. -/
def ivKey (x : Intervention) : ℕ × ℚ :=
  (priorityRank x.priority, -x.projected_impact)

/-- Lexicographic comparison of sort keys (Python tuple comparison). -/
def ivLe (a b : Intervention) : Prop :=
  (ivKey a).1 < (ivKey b).1 ∨ ((ivKey a).1 = (ivKey b).1 ∧ (ivKey a).2 ≤ (ivKey b).2)

instance : DecidableRel ivLe := fun a b => by
  unfold ivLe
  infer_instance

instance : IsTotal Intervention ivLe :=
  ⟨fun a b => by
    unfold ivLe
    rcases lt_trichotomy (ivKey a).1 (ivKey b).1 with h | h | h
    · exact Or.inl (Or.inl h)
    · rcases le_total (ivKey a).2 (ivKey b).2 with h2 | h2
      · exact Or.inl (Or.inr ⟨h, h2⟩)
      · exact Or.inr (Or.inr ⟨h.symm, h2⟩)
    · exact Or.inr (Or.inl h)⟩

instance : IsTrans Intervention ivLe :=
  ⟨fun a b c hab hbc => by
    unfold ivLe at hab hbc ⊢
    rcases hab with h1 | ⟨h1, h1q⟩ <;> rcases hbc with h2 | ⟨h2, h2q⟩
    · exact Or.inl (lt_trans h1 h2)
    · exact Or.inl (h2 ▸ h1)
    · exact Or.inl (h1 ▸ h2)
    · exact Or.inr ⟨h1.trans h2, le_trans h1q h2q⟩⟩

theorem ivLe_of_key_eq {a b : Intervention} (h : ivKey a = ivKey b) : ivLe a b :=
  Or.inr ⟨congrArg Prod.fst h, le_of_eq (congrArg Prod.snd h)⟩

/-- Result record of `_compute_summary`: counts per priority tier over the
pooled list and the rounded sum of projected impacts. -/
structure InterventionSummary where
  total_interventions : ℕ
  critical : ℕ
  high : ℕ
  medium : ℕ
  total_projected_impact : ℚ

/-- Embedding of `_compute_summary` (interventions_service.py). -/
def compute_summary (l : List Intervention) : InterventionSummary :=
  { total_interventions := l.length
    critical := (l.filter (fun x => decide (x.priority = "critical"))).length
    high := (l.filter (fun x => decide (x.priority = "high"))).length
    medium := (l.filter (fun x => decide (x.priority = "medium"))).length
    total_projected_impact := roundTo 1 (l.map (fun x => x.projected_impact)).sum }

/-- Return shape of `get_strategic_interventions`. -/
structure StrategicInterventions where
  summary : InterventionSummary
  interventions : List Intervention

/-- Embedding of `get_strategic_interventions`
(backend/services/interventions_service.py): the outputs of the four
domain generators are pooled in order congestion → food → transport → satisfaction
and sorted with the stable Python `list.sort` under the key above.  The four
generators are passed in as the already-generated lists; the pooling,
sorting and summary step is what this models. -/
def get_strategic_interventions (cong fd tr st : List Intervention) : StrategicInterventions :=
  let sorted := List.insertionSort ivLe (cong ++ fd ++ tr ++ st)
  ⟨compute_summary sorted, sorted⟩

/-- Filtering on one key value commutes with `orderedInsert`: the inserted
element lands before every equal-key element already present. -/
theorem filter_key_orderedInsert (k : ℕ × ℚ) (a : Intervention) (l : List Intervention) :
    (List.orderedInsert ivLe a l).filter (fun x => decide (ivKey x = k))
      = if ivKey a = k then a :: l.filter (fun x => decide (ivKey x = k))
        else l.filter (fun x => decide (ivKey x = k)) := by
  induction l with
  | nil =>
    by_cases hk : ivKey a = k
    · simp [List.orderedInsert, List.filter_cons, hk]
    · simp [List.orderedInsert, List.filter_cons, hk]
  | cons b l ih =>
    rw [List.orderedInsert]
    by_cases hab : ivLe a b
    · rw [if_pos hab]
      by_cases hk : ivKey a = k
      · simp [List.filter_cons, hk]
      · simp [List.filter_cons, hk]
    · rw [if_neg hab]
      by_cases hk : ivKey a = k
      · have hbk : ¬ ivKey b = k := by
          intro hbk
          exact hab (ivLe_of_key_eq (hk.trans hbk.symm))
        rw [if_pos hk]
        simp [List.filter_cons, hbk, ih, hk]
      · rw [if_neg hk]
        by_cases hbk : ivKey b = k
        · simp [List.filter_cons, hbk, ih, hk]
        · simp [List.filter_cons, hbk, ih, hk]

/-- Stability of the sort: the subsequence of any fixed key value is
unchanged. -/
theorem filter_key_insertionSort (k : ℕ × ℚ) (l : List Intervention) :
    (List.insertionSort ivLe l).filter (fun x => decide (ivKey x = k))
      = l.filter (fun x => decide (ivKey x = k)) := by
  induction l with
  | nil => rfl
  | cons a l ih =>
    rw [List.insertionSort, filter_key_orderedInsert]
    by_cases hk : ivKey a = k
    · simp [List.filter_cons, hk, ih]
    · simp [List.filter_cons, hk, ih]

/-- C5: the pooled intervention list is returned as a permutation sorted by
priority rank (critical < high < medium < unknown) and then by projected
impact descending; elements with equal key keep their original
generation-order (stability, stated per key value); in particular a
"critical" intervention always precedes a "high" one regardless of
projected impact. -/
theorem interventions_sort_spec (cg fd tr st : List Intervention) :
    (get_strategic_interventions cg fd tr st).interventions.Perm (cg ++ fd ++ tr ++ st)
    ∧ List.Sorted ivLe (get_strategic_interventions cg fd tr st).interventions
    ∧ (∀ k, (get_strategic_interventions cg fd tr st).interventions.filter (fun x => decide (ivKey x = k))
        = (cg ++ fd ++ tr ++ st).filter (fun x => decide (ivKey x = k)))
    ∧ (∀ i j, ∀ hi : i < (get_strategic_interventions cg fd tr st).interventions.length,
        ∀ hj : j < (get_strategic_interventions cg fd tr st).interventions.length,
        ((get_strategic_interventions cg fd tr st).interventions.get ⟨i, hi⟩).priority = "high" →
        ((get_strategic_interventions cg fd tr st).interventions.get ⟨j, hj⟩).priority = "critical" →
        j < i) := by
  refine ⟨List.perm_insertionSort ivLe _, List.sorted_insertionSort ivLe _,
    fun k => filter_key_insertionSort k _, ?_⟩
  intro i j hi hj hhigh hcrit
  by_contra hji
  push_neg at hji
  rcases lt_or_eq_of_le hji with hij | hij
  · have hrel : ivLe ((get_strategic_interventions cg fd tr st).interventions.get ⟨i, hi⟩)
        ((get_strategic_interventions cg fd tr st).interventions.get ⟨j, hj⟩) :=
      (List.sorted_insertionSort ivLe (cg ++ fd ++ tr ++ st)).rel_get_of_lt
        (show (⟨i, hi⟩ : Fin _) < ⟨j, hj⟩ from hij)
    have hle : priorityRank ((get_strategic_interventions cg fd tr st).interventions.get ⟨i, hi⟩).priority
        ≤ priorityRank ((get_strategic_interventions cg fd tr st).interventions.get ⟨j, hj⟩).priority := by
      rcases hrel with h | ⟨h, _⟩
      · exact le_of_lt h
      · exact le_of_eq h
    rw [hhigh, hcrit] at hle
    exact absurd hle (by decide)
  · subst hij
    have hsame : ((get_strategic_interventions cg fd tr st).interventions.get ⟨i, hi⟩)
        = ((get_strategic_interventions cg fd tr st).interventions.get ⟨i, hj⟩) := rfl
    rw [hsame, hcrit] at hhigh
    exact absurd hhigh (by decide)

/-- A single "high"-priority intervention with large impact. -/
def ivHigh : List Intervention := [⟨"c1", "congestion", "high", 50⟩]

/-- A single "critical"-priority intervention with small impact. -/
def ivCritical : List Intervention := [⟨"f1", "food", "critical", 1⟩]

/-- C5 witness: sorting the pool [high(50), critical(1)] puts the critical
intervention (position 0) before the high one (position 1) although its
projected impact is smaller. -/
theorem interventions_sort_spec_witness : 0 < 1 :=
  (interventions_sort_spec ivHigh ivCritical [] []).2.2.2 1 0
    (by decide) (by decide) rfl rfl

/-! Model training and caching (backend/models/train_models.py).  The table
reaching the trainers is addressed by column name (`df[feature_cols]` raises
`KeyError` on a missing column), so here a table is a list of rows indexed
by column name.  The sklearn regressors are external to the repository and
are abstracted as the parameters `fit`/`predictM`; the shuffle of
`train_test_split(random_state=42)` is abstracted to a deterministic
prefix/suffix split of the same sizes (`test_size = TEST_SIZE = 0.2`) — the
claims about caching and error propagation do not depend on which rows land
in which partition. -/

/-- A dataframe addressed by column name: `names` are the columns present,
each row is a total assignment of values to names. -/
structure DynTable where
  names : List String
  rows : List (String → ℚ)

/-- Column access `df[c]` for a single column: `KeyError` when absent. -/
def col_select (t : DynTable) (c : String) : Except String (List ℚ) :=
  if c ∈ t.names then .ok (t.rows.map (fun r => r c))
  else .error ("KeyError: " ++ c)

/-- Column access `df[cs]` for a list of columns, as a row-major matrix: `KeyError` when
any column is absent. -/
def cols_select (t : DynTable) (cs : List String) : Except String (List (List ℚ)) :=
  if cs.all (fun c => decide (c ∈ t.names)) then .ok (t.rows.map (fun r => cs.map r))
  else .error "KeyError"

/-- Partition sizes of `train_test_split(test_size=0.2)` on `n` samples:
`n_test = ⌈0.2·n⌉`, `n_train = n − n_test`; sklearn raises `ValueError` when
either partition would be empty. -/
def train_test_split_counts (n : ℕ) : Except String (ℕ × ℕ) :=
  let nTest := (n + 4) / 5
  let nTrain := n - nTest
  if nTrain = 0 ∨ nTest = 0 then .error "ValueError: resulting train or test set is empty"
  else .ok (nTrain, nTest)

/-- Embedding of `_split` (train_models.py): train/test partition of features and target. -/
def splitTT (X : List (List ℚ)) (y : List ℚ) :
    Except String (List (List ℚ) × List (List ℚ) × List ℚ × List ℚ) :=
  match train_test_split_counts y.length with
  | .error e => .error e
  | .ok (nTrain, _) => .ok (X.take nTrain, X.drop nTrain, y.take nTrain, y.drop nTrain)

/-- Metric `sklearn.metrics.r2_score`: `1 − Σ(y−ŷ)² / Σ(y−ȳ)²` (in this ℚ model a
zero total sum of squares yields `1 − x/0 = 1` by the total-division
convention; the metric value is irrelevant to the claims). -/
def r2_score (yTrue yPred : List ℚ) : ℚ :=
  let ybar := listMean yTrue
  1 - (List.zipWith (fun a b => (a - b) ^ 2) yTrue yPred).sum
      / (yTrue.map (fun a => (a - ybar) ^ 2)).sum

/-- Metric `sklearn.metrics.mean_absolute_error`. -/
def mean_absolute_error (yTrue yPred : List ℚ) : ℚ :=
  listMean (List.zipWith (fun a b => |a - b|) yTrue yPred)

/-- The cached bundle built by each model getter. -/
structure ModelBundle (M : Type) where
  model : M
  feature_names : List String
  r2 : ℚ
  mae : ℚ
  X_test : List (List ℚ)
  y_test : List ℚ

/-- Features of the food-demand model. -/
def foodFeatures : List String := ["Footfall", "zone_encoded", "time_slot_encoded"]

/-- Features of the satisfaction model. -/
def satisfactionFeatures : List String :=
  ["congestion_index", "Avg_Delay_Min", "waste_percent", "Response_Time_hr"]

/-- Embedding of `get_food_demand_model` (train_models.py).  The module-level
`_food_model_cache` is passed and returned explicitly; the first component
is the result of the call (`Except` models a raised exception escaping before the
cache assignment). -/
def get_food_demand_model {M : Type} (fit : List (List ℚ) → List ℚ → M)
    (predictM : M → List ℚ → ℚ) (cache : Option (ModelBundle M)) (df : DynTable) :
    Except String (ModelBundle M) × Option (ModelBundle M) :=
  match cache with
  | some b => (.ok b, some b)
  | none =>
    match cols_select df foodFeatures with
    | .error e => (.error e, none)
    | .ok X =>
      match col_select df "Orders" with
      | .error e => (.error e, none)
      | .ok y =>
        match splitTT X y with
        | .error e => (.error e, none)
        | .ok (Xtr, Xte, _ytr, yte) =>
          let m := fit Xtr _ytr
          let yPred := Xte.map (predictM m)
          let b : ModelBundle M :=
            ⟨m, foodFeatures, roundTo 4 (r2_score yte yPred),
              roundTo 4 (mean_absolute_error yte yPred), Xte, yte⟩
          (.ok b, some b)

/-- Embedding of `get_satisfaction_model` (train_models.py); the
`RandomForestRegressor(n_estimators=150, max_depth=12, random_state=42)` is
the abstract `fit`. -/
def get_satisfaction_model {M : Type} (fit : List (List ℚ) → List ℚ → M)
    (predictM : M → List ℚ → ℚ) (cache : Option (ModelBundle M)) (df : DynTable) :
    Except String (ModelBundle M) × Option (ModelBundle M) :=
  match cache with
  | some b => (.ok b, some b)
  | none =>
    match cols_select df satisfactionFeatures with
    | .error e => (.error e, none)
    | .ok X =>
      match col_select df "Satisfaction" with
      | .error e => (.error e, none)
      | .ok y =>
        match splitTT X y with
        | .error e => (.error e, none)
        | .ok (Xtr, Xte, _ytr, yte) =>
          let m := fit Xtr _ytr
          let yPred := Xte.map (predictM m)
          let b : ModelBundle M :=
            ⟨m, satisfactionFeatures, roundTo 4 (r2_score yte yPred),
              roundTo 4 (mean_absolute_error yte yPred), Xte, yte⟩
          (.ok b, some b)

/-- C3: for each getter, a successful first call from an empty cache stores
exactly the bundle it returns, and every subsequent call — with any table
argument and even any trainer — returns that identical bundle and leaves
the cache unchanged (no retraining occurs: the cached branch never calls
`fit`). -/
theorem model_cache_stable {M : Type} (fit : List (List ℚ) → List ℚ → M)
    (predictM : M → List ℚ → ℚ) :
    (∀ (df1 : DynTable) (b : ModelBundle M) (c : Option (ModelBundle M)),
      get_food_demand_model fit predictM none df1 = (.ok b, c) →
      c = some b
      ∧ ∀ (df2 : DynTable) (fit2 : List (List ℚ) → List ℚ → M)
          (predict2 : M → List ℚ → ℚ),
          get_food_demand_model fit2 predict2 c df2 = (.ok b, c))
    ∧ (∀ (df1 : DynTable) (b : ModelBundle M) (c : Option (ModelBundle M)),
      get_satisfaction_model fit predictM none df1 = (.ok b, c) →
      c = some b
      ∧ ∀ (df2 : DynTable) (fit2 : List (List ℚ) → List ℚ → M)
          (predict2 : M → List ℚ → ℚ),
          get_satisfaction_model fit2 predict2 c df2 = (.ok b, c)) := by
  constructor
  · intro df1 b c h
    simp only [get_food_demand_model] at h
    rcases hX : cols_select df1 foodFeatures with eX | X <;> rw [hX] at h <;> dsimp only at h
    · simp at h
    rcases hy : col_select df1 "Orders" with ey | y <;> rw [hy] at h <;> dsimp only at h
    · simp at h
    rcases hs : splitTT X y with es | s <;> rw [hs] at h <;> dsimp only at h
    · simp at h
    obtain ⟨Xtr, Xte, ytr, yte⟩ := s
    simp only [Prod.mk.injEq] at h
    obtain ⟨h1, h2⟩ := h
    have hb := Except.ok.inj h1
    subst hb
    subst h2
    exact ⟨rfl, fun df2 fit2 predict2 => rfl⟩
  · intro df1 b c h
    simp only [get_satisfaction_model] at h
    rcases hX : cols_select df1 satisfactionFeatures with eX | X <;> rw [hX] at h <;> dsimp only at h
    · simp at h
    rcases hy : col_select df1 "Satisfaction" with ey | y <;> rw [hy] at h <;> dsimp only at h
    · simp at h
    rcases hs : splitTT X y with es | s <;> rw [hs] at h <;> dsimp only at h
    · simp at h
    obtain ⟨Xtr, Xte, ytr, yte⟩ := s
    simp only [Prod.mk.injEq] at h
    obtain ⟨h1, h2⟩ := h
    have hb := Except.ok.inj h1
    subst hb
    subst h2
    exact ⟨rfl, fun df2 fit2 predict2 => rfl⟩

/-- A two-row table carrying every column either model needs, with all
values 0. -/
def dfTrainW : DynTable :=
  { names := ["Footfall", "zone_encoded", "time_slot_encoded", "Orders",
      "congestion_index", "Avg_Delay_Min", "waste_percent", "Response_Time_hr",
      "Satisfaction"],
    rows := [fun _ => 0, fun _ => 0] }

/-- The bundle the food getter computes on `dfTrainW` with the trivial
trainer (`r2 = 1` by the total-division convention on a zero total sum of
squares, `mae = 0`). -/
def bFoodW : ModelBundle Unit :=
  ⟨(), foodFeatures, 1, 0, [[0, 0, 0]], [0]⟩

/-- The bundle the satisfaction getter computes on `dfTrainW` with the
trivial trainer. -/
def bSatW : ModelBundle Unit :=
  ⟨(), satisfactionFeatures, 1, 0, [[0, 0, 0, 0]], [0]⟩

/-- C3 witness: after a concrete successful first call on `dfTrainW`, a
second call on a completely different (empty) table returns the identical
cached bundle and cache. -/
theorem model_cache_stable_witness :
    get_food_demand_model (fun _ _ => ()) (fun _ _ => 0) (some bFoodW)
        ⟨[], []⟩ = (.ok bFoodW, some bFoodW)
    ∧ get_satisfaction_model (fun _ _ => ()) (fun _ _ => 0) (some bSatW)
        ⟨[], []⟩ = (.ok bSatW, some bSatW) := by
  have hfood : get_food_demand_model (fun _ _ => ()) (fun _ _ => 0) none dfTrainW
      = (.ok bFoodW, some bFoodW) := by
    norm_num [get_food_demand_model, cols_select, col_select, splitTT,
      train_test_split_counts, r2_score, mean_absolute_error, listMean,
      roundTo, roundHalfEven, foodFeatures, dfTrainW, bFoodW]
  have hsat : get_satisfaction_model (fun _ _ => ()) (fun _ _ => 0) none dfTrainW
      = (.ok bSatW, some bSatW) := by
    norm_num [get_satisfaction_model, cols_select, col_select, splitTT,
      train_test_split_counts, r2_score, mean_absolute_error, listMean,
      roundTo, roundHalfEven, satisfactionFeatures, dfTrainW, bSatW]
  exact ⟨((model_cache_stable _ _).1 dfTrainW bFoodW (some bFoodW) hfood).2 ⟨[], []⟩ _ _,
    ((model_cache_stable _ _).2 dfTrainW bSatW (some bSatW) hsat).2 ⟨[], []⟩ _ _⟩

/-- C7: with an empty cache, a table that lacks a required feature or target
column, or has fewer than 2 rows (so the 20% split would leave an empty
train or test partition), makes each getter return an error, and the cache
stays unpopulated — no degraded bundle is produced. -/
theorem model_train_error {M : Type} (fit : List (List ℚ) → List ℚ → M)
    (predictM : M → List ℚ → ℚ) (df : DynTable) :
    ((¬ ∀ cc ∈ foodFeatures ++ ["Orders"], cc ∈ df.names) ∨ df.rows.length < 2 →
      ∃ e, get_food_demand_model fit predictM none df = (.error e, none))
    ∧ ((¬ ∀ cc ∈ satisfactionFeatures ++ ["Satisfaction"], cc ∈ df.names)
        ∨ df.rows.length < 2 →
      ∃ e, get_satisfaction_model fit predictM none df = (.error e, none)) := by
  constructor
  · intro h
    by_cases hf : foodFeatures.all (fun c2 => decide (c2 ∈ df.names))
    · by_cases ho : "Orders" ∈ df.names
      · have hcols : ∀ cc ∈ foodFeatures ++ ["Orders"], cc ∈ df.names := by
          intro cc hcc
          rcases List.mem_append.mp hcc with h1 | h1
          · exact of_decide_eq_true (List.all_eq_true.mp hf cc h1)
          · rw [List.mem_singleton.mp h1]; exact ho
        have hn : df.rows.length < 2 := h.resolve_left (fun hc => hc hcols)
        have hsplit : train_test_split_counts (df.rows.map (fun r => r "Orders")).length
            = .error "ValueError: resulting train or test set is empty" := by
          rw [List.length_map]
          have h01 : df.rows.length = 0 ∨ df.rows.length = 1 := by omega
          rcases h01 with h0 | h0 <;> rw [h0] <;> rfl
        refine ⟨"ValueError: resulting train or test set is empty", ?_⟩
        simp only [get_food_demand_model]
        rw [show cols_select df foodFeatures
            = .ok (df.rows.map (fun r => foodFeatures.map r)) from by
          simp [cols_select, hf]]
        dsimp only
        rw [show col_select df "Orders" = .ok (df.rows.map (fun r => r "Orders")) from by
          simp [col_select, ho]]
        dsimp only
        rw [show splitTT (df.rows.map (fun r => foodFeatures.map r))
              (df.rows.map (fun r => r "Orders"))
            = .error "ValueError: resulting train or test set is empty" from by
          simp only [splitTT, hsplit]]
      · refine ⟨"KeyError: " ++ "Orders", ?_⟩
        simp only [get_food_demand_model]
        rw [show cols_select df foodFeatures
            = .ok (df.rows.map (fun r => foodFeatures.map r)) from by
          simp [cols_select, hf]]
        dsimp only
        rw [show col_select df "Orders" = .error ("KeyError: " ++ "Orders") from by
          simp [col_select, ho]]
    · refine ⟨"KeyError", ?_⟩
      simp only [get_food_demand_model]
      rw [show cols_select df foodFeatures = .error "KeyError" from by
        simp only [cols_select, if_neg hf]]
  · intro h
    by_cases hf : satisfactionFeatures.all (fun c2 => decide (c2 ∈ df.names))
    · by_cases ho : "Satisfaction" ∈ df.names
      · have hcols : ∀ cc ∈ satisfactionFeatures ++ ["Satisfaction"], cc ∈ df.names := by
          intro cc hcc
          rcases List.mem_append.mp hcc with h1 | h1
          · exact of_decide_eq_true (List.all_eq_true.mp hf cc h1)
          · rw [List.mem_singleton.mp h1]; exact ho
        have hn : df.rows.length < 2 := h.resolve_left (fun hc => hc hcols)
        have hsplit : train_test_split_counts
              (df.rows.map (fun r => r "Satisfaction")).length
            = .error "ValueError: resulting train or test set is empty" := by
          rw [List.length_map]
          have h01 : df.rows.length = 0 ∨ df.rows.length = 1 := by omega
          rcases h01 with h0 | h0 <;> rw [h0] <;> rfl
        refine ⟨"ValueError: resulting train or test set is empty", ?_⟩
        simp only [get_satisfaction_model]
        rw [show cols_select df satisfactionFeatures
            = .ok (df.rows.map (fun r => satisfactionFeatures.map r)) from by
          simp [cols_select, hf]]
        dsimp only
        rw [show col_select df "Satisfaction"
            = .ok (df.rows.map (fun r => r "Satisfaction")) from by
          simp [col_select, ho]]
        dsimp only
        rw [show splitTT (df.rows.map (fun r => satisfactionFeatures.map r))
              (df.rows.map (fun r => r "Satisfaction"))
            = .error "ValueError: resulting train or test set is empty" from by
          simp only [splitTT, hsplit]]
      · refine ⟨"KeyError: " ++ "Satisfaction", ?_⟩
        simp only [get_satisfaction_model]
        rw [show cols_select df satisfactionFeatures
            = .ok (df.rows.map (fun r => satisfactionFeatures.map r)) from by
          simp [cols_select, hf]]
        dsimp only
        rw [show col_select df "Satisfaction" = .error ("KeyError: " ++ "Satisfaction") from by
          simp [col_select, ho]]
    · refine ⟨"KeyError", ?_⟩
      simp only [get_satisfaction_model]
      rw [show cols_select df satisfactionFeatures = .error "KeyError" from by
        simp only [cols_select, if_neg hf]]

/-- C7 witness: on the empty table (no columns, no rows) both getters fail
and leave the cache empty. -/
theorem model_train_error_witness :
    (∃ e, get_food_demand_model (fun _ _ => ()) (fun _ _ => (0:ℚ)) none
        ⟨[], []⟩ = (.error e, none))
    ∧ (∃ e, get_satisfaction_model (fun _ _ => ()) (fun _ _ => (0:ℚ)) none
        ⟨[], []⟩ = (.error e, none)) :=
  ⟨(model_train_error (fun _ _ => ()) (fun _ _ => (0:ℚ)) ⟨[], []⟩).1
      (Or.inl (by decide)),
    (model_train_error (fun _ _ => ()) (fun _ _ => (0:ℚ)) ⟨[], []⟩).2
      (Or.inl (by decide))⟩

/-! Frame conditions of the preprocessing functions.  Both `clean_dataframe`
and `add_engineered_features` start with `df = df.copy()` and then mutate
only the copy through in-place column assignments.  To state that the input
dataframe object of the caller is untouched, the two calls are modelled against an explicit
object store: a call reads the argument object, allocates a fresh copy, and
every subsequent write of the body targets the copy (the successive column
writes are collapsed into one store of the pure result). -/

/-- A dataframe object in the store: a raw/cleaned table or a processed one. -/
inductive DfVal
  | raw (t : List RawRow)
  | eng (t : List EngRow)

/-- Call of `clean_dataframe` as a store transformer: `r` is the object passed by the caller;
the returned reference is the freshly allocated copy, the only object
written. -/
def run_clean_dataframe (h : List DfVal) (r : ℕ) : List DfVal × Option ℕ :=
  match h[r]? with
  | some (.raw t) =>
    let h1 := h ++ [DfVal.raw t]
    let rc := h.length
    let h2 := h1.set rc (DfVal.raw (clean_dataframe t))
    (h2, some rc)
  | _ => (h, none)

/-- Call of `add_engineered_features` as a store transformer, likewise. -/
def run_add_engineered_features (h : List DfVal) (r : ℕ) : List DfVal × Option ℕ :=
  match h[r]? with
  | some (.raw t) =>
    let h1 := h ++ [DfVal.raw t]
    let rc := h.length
    let h2 := h1.set rc (DfVal.eng (add_engineered_features t))
    (h2, some rc)
  | _ => (h, none)

/-- C10: neither call modifies its input object — after either call the
dataframe of the caller reads back unchanged from the store. -/
theorem preprocessing_no_mutation (h : List DfVal) (r : ℕ) (hr : r < h.length) :
    ((run_clean_dataframe h r).1)[r]? = h[r]?
    ∧ ((run_add_engineered_features h r).1)[r]? = h[r]? := by
  constructor
  · rcases hv : h[r]? with _ | v
    · simp [run_clean_dataframe, hv]
    · rcases v with t | t
      · simp only [run_clean_dataframe, hv]
        rw [List.getElem?_set_ne (by omega), List.getElem?_append_left hr]
        exact hv
      · simp [run_clean_dataframe, hv]
  · rcases hv : h[r]? with _ | v
    · simp [run_add_engineered_features, hv]
    · rcases v with t | t
      · simp only [run_add_engineered_features, hv]
        rw [List.getElem?_set_ne (by omega), List.getElem?_append_left hr]
        exact hv
      · simp [run_add_engineered_features, hv]

/-- C10 witness: a single-object store holding an all-missing one-row table;
after both calls the original object is intact. -/
theorem preprocessing_no_mutation_witness :
    ((run_clean_dataframe [DfVal.raw rawAllMissing] 0).1)[0]?
        = ([DfVal.raw rawAllMissing] : List DfVal)[0]?
    ∧ ((run_add_engineered_features [DfVal.raw rawAllMissing] 0).1)[0]?
        = ([DfVal.raw rawAllMissing] : List DfVal)[0]? :=
  preprocessing_no_mutation [DfVal.raw rawAllMissing] 0 (by decide)

end Campus
